import Mathlib

/-!
Shallow embedding of the trace-canonicalization and LCS-similarity engine of
the repository (canonical implementation: `fourth iteration/trace_analysis.py`,
with the full-table reference LCS from
`first iteration/trace_instrumenter.py` (`SimilarityCalculator._lcs`)).

Conventions of the embedding:
* Python `float` similarity scores are modelled as exact rationals `ℚ`
  (every value the code produces is a ratio of machine integers).
* Python dict trace entries `{function, event, line}` are modelled by the
  structure `Entry` whose fields are `Option PyVal`; `dict.get` returning
  `None` for a missing key is `Option.getD … PyVal.none`.
* Python's ASCII `str.lower` is `Char.toLower` (the core definition is the
  same arithmetic on code points the CPython ASCII fast path uses).
* `json.loads` (an external library call) is an uninterpreted parameter
  `decode : String → Option PyJson`; everything the repository's own code
  does around it (splitting lines, stripping, filtering for arrays of
  records, concatenating) is embedded faithfully.
-/

namespace TraceAnalysis

/-- Python value model: just the shapes the analysed code can meet in a
trace entry (`None`, booleans, integers, strings). -/
inductive PyVal where
  | none : PyVal
  | bool (b : Bool) : PyVal
  | int (n : Int) : PyVal
  | str (s : String) : PyVal
deriving DecidableEq, Repr

/-- Python truthiness (`bool(v)`) for the modelled values. -/
def pyTruthy : PyVal → Bool
  | .none => false
  | .bool b => b
  | .int n => n ≠ 0
  | .str s => s ≠ ""

/-- Python `str(v)` for the modelled values (identity on strings). -/
def pyStr : PyVal → String
  | .none => "None"
  | .bool true => "True"
  | .bool false => "False"
  | .int n => toString n
  | .str s => s

/-- Python `isinstance(v, int)` (booleans are ints in Python). -/
def isPyInt : PyVal → Bool
  | .int _ => true
  | .bool _ => true
  | _ => false

/-- Whitespace stripped by Python's `str.strip()` (space, tab, LF, CR, VT, FF). -/
def isPySpace (c : Char) : Bool :=
  c.toNat = 32 || c.toNat = 9 || c.toNat = 10 || c.toNat = 13 ||
  c.toNat = 11 || c.toNat = 12

/-- Python `str.strip()` on a character list: drop whitespace at both ends. -/
def pyStripL (l : List Char) : List Char :=
  ((l.dropWhile isPySpace).reverse.dropWhile isPySpace).reverse

/-- Python `str.strip()`. -/
def pyStrip (s : String) : String :=
  String.mk (pyStripL s.toList)

/-- Python `str.lower()` (ASCII; `Char.toLower` is exactly the ASCII case map). -/
def pyLower (s : String) : String :=
  String.mk (s.toList.map Char.toLower)

/-- Character class `[0-9a-zA-Z_]` of the fallback-escape regex. -/
def isWordChar (c : Char) : Bool :=
  (48 ≤ c.toNat && c.toNat ≤ 57) || (97 ≤ c.toNat && c.toNat ≤ 122) ||
  (65 ≤ c.toNat && c.toNat ≤ 90) || c.toNat = 95

/-- One step of `re.sub(r'[^0-9a-zA-Z_]', '_', …)`: escape a non-word char to `_`. -/
def escapeChar (c : Char) : Char :=
  if isWordChar c then c else '_'

/-- One trace record, a Python dict `{function:…, event:…, line:…}`.
A missing key is `Option.none`. -/
structure Entry where
  function : Option PyVal
  event : Option PyVal
  line : Option PyVal
deriving DecidableEq, Repr

/-- The name the canonicalizer works on:
`func = entry.get('function') or entry.get('event') or ''`, then
`str(func)` when the value is not a string. -/
def entryName (e : Entry) : String :=
  let f0 := e.function.getD PyVal.none
  let f1 := if pyTruthy f0 then f0 else e.event.getD PyVal.none
  let f2 := if pyTruthy f1 then f1 else PyVal.str ""
  match f2 with
  | .str s => s
  | v => pyStr v

/-- Substring test: Python `needle in hay` on character lists. -/
def subStr (needle : List Char) : List Char → Bool
  | [] => needle.isPrefixOf []
  | c :: rest => needle.isPrefixOf (c :: rest) || subStr needle rest

/-- `OBFUSCATOR_NAME_PATTERN = re.compile(r'^(?:a0_0x|_0x|_0x[a-f0-9]+|0x)[0-9a-fA-F_]*')`
used with `.match` (anchored prefix search).  Because the trailing class is
starred and the branch `_0x[a-f0-9]+` is subsumed by the branch `_0x`,
the regex matches exactly the strings starting with `a0_0x`, `_0x` or `0x`. -/
def obfMatchL (l : List Char) : Bool :=
  "a0_0x".toList.isPrefixOf l || "_0x".toList.isPrefixOf l ||
  "0x".toList.isPrefixOf l

/-- The ordered keyword dispatch of `canonicalize_entry` applied to the
lowercased, stripped name (`lower` in the source). -/
def classifyKeyword (low : List Char) : Option String :=
  if subStr "process.on".toList low || low = "data_handler".toList ||
      low = "data".toList || low = "handler".toList || low = "ondata".toList ||
      low = "on_data".toList then some "HANDLER"
  else if low = "global".toList || low = "<module>".toList ||
      low = "root".toList then some "GLOBAL"
  else if subStr "parseint".toList low || subStr "parse_int".toList low then
    some "PARSE_INT"
  else if subStr "to_string".toList low || subStr "tostring".toList low then
    some "TO_STRING"
  else if subStr "console".toList low || subStr "log".toList low then
    some "CONSOLE_LOG"
  else if "anonymous".toList.isPrefixOf low ||
      "<anonymous>".toList.isPrefixOf low then some "ANON_FN"
  else none

/-- `canonicalize_entry(entry)`: resolve the name, strip it, test the
obfuscator pattern on the original-case name, then run the keyword chain on
the lowercase name, falling back to `FN:<escaped>` / `FN:FN_UNKNOWN`. -/
def canonicalize_entry (e : Entry) : String :=
  let norm := pyStripL (entryName e).toList
  if obfMatchL norm then "OBFUSCATOR_WRAPPER"
  else
    match classifyKeyword (norm.map Char.toLower) with
    | some t => t
    | none =>
      let cleaned := norm.map escapeChar
      String.mk ("FN:".toList ++
        (if cleaned = [] then "FN_UNKNOWN".toList else cleaned))

/-- `canonicalize_trace(raw_trace, include_line)`: token per entry, optional
`@L<line>` suffix for integer lines on non-wrapper tokens, wrapper tokens
dropped. -/
def canonicalize_trace (raw : List Entry) (include_line : Bool) : List String :=
  raw.filterMap (fun e =>
    let t0 := canonicalize_entry e
    let token :=
      if include_line && isPyInt (e.line.getD PyVal.none) &&
          t0 ≠ "OBFUSCATOR_WRAPPER" then
        t0 ++ "@L" ++ pyStr (e.line.getD PyVal.none)
      else t0
    if token = "OBFUSCATOR_WRAPPER" then none else some token)

/-- JSON value model for the stderr trace protocol. -/
inductive PyJson where
  | null : PyJson
  | bool (b : Bool) : PyJson
  | num (q : ℚ) : PyJson
  | str (s : String) : PyJson
  | arr (xs : List PyJson) : PyJson
  | obj (kvs : List (String × PyJson)) : PyJson

/-- Python `isinstance(x, dict)` on a decoded JSON value. -/
def isJsonObj : PyJson → Bool
  | .obj _ => true
  | _ => false

/-- Python `str.splitlines()` restricted to the terminators that occur in
process output: `\n`, `\r` and `\r\n` (a trailing terminator yields no
extra empty line, and the empty string yields no lines). -/
def pySplitlinesAux : List Char → List Char → List String
  | [], [] => []
  | [], acc => [String.mk acc.reverse]
  | '\r' :: '\n' :: rest, acc => String.mk acc.reverse :: pySplitlinesAux rest []
  | '\r' :: rest, acc => String.mk acc.reverse :: pySplitlinesAux rest []
  | '\n' :: rest, acc => String.mk acc.reverse :: pySplitlinesAux rest []
  | c :: rest, acc => pySplitlinesAux rest (c :: acc)

/-- Python `str.splitlines()` (see `pySplitlinesAux`). -/
def pySplitlines (s : String) : List String :=
  pySplitlinesAux s.toList []

/-- The per-line step of `parse_json_lines_from_stderr`: strip the line,
skip it when empty, decode it, and keep the result only when it is an array
whose every element is a record. `decode` stands for `json.loads`, with
`Option.none` for a raised `JSONDecodeError`. -/
def lineTrace (decode : String → Option PyJson) (line : String) :
    Option (List PyJson) :=
  let l := pyStrip line
  if l = "" then none
  else
    match decode l with
    | some (PyJson.arr xs) => if xs.all isJsonObj then some xs else none
    | _ => none

/-- `parse_json_lines_from_stderr(stderr_text)`: every line is attempted
independently; recognized trace arrays are collected in line order. -/
def parse_json_lines_from_stderr (decode : String → Option PyJson)
    (stderr_text : String) : List (List PyJson) :=
  (pySplitlines stderr_text).filterMap (lineTrace decode)

/-- `merge_traces(trace_lists)`: concatenate all recognized arrays in order. -/
def merge_traces (trace_lists : List (List PyJson)) : List PyJson :=
  trace_lists.foldl (· ++ ·) []

/-- The merge-all policy as the spec words it: each source line contributes
its decoded record array when and only when it strips to a non-empty string
that decodes to an array of records, and the final trace is the
concatenation of these contributions in source-line order. -/
def specMergeAll (decode : String → Option PyJson) (stderr_text : String) :
    List PyJson :=
  ((pySplitlines stderr_text).map (fun line =>
    if pyStrip line = "" then []
    else
      match decode (pyStrip line) with
      | some (PyJson.arr xs) => if xs.all isJsonObj then xs else []
      | _ => [])).flatten

/-- Longest common subsequence length, by the textbook recursion on the two
sequences; this is the mathematical specification the dynamic programs are
checked against. -/
def lcsSpec {α : Type} [DecidableEq α] : List α → List α → Nat
  | [], _ => 0
  | _ :: _, [] => 0
  | a :: as, b :: bs =>
    if a = b then lcsSpec as bs + 1
    else max (lcsSpec (a :: as) bs) (lcsSpec as (b :: bs))
termination_by x y => x.length + y.length
decreasing_by all_goals simp_arith

/-- The inner loop of the rolling-array `lcs_length`: `c` is `cur[j-1]`,
the list argument is the suffix of `prev` starting at `prev[j-1]`; for each
remaining element of `seq2` it emits
`cur[j] = prev[j-1]+1` on a match and `max(prev[j], cur[j-1])` otherwise. -/
def lcsRowAux {α : Type} [DecidableEq α] (a : α) :
    Nat → List α → List Nat → List Nat
  | _, [], _ => []
  | _, _ :: _, [] => []
  | c, b :: bs, p0 :: ps =>
    let v := if a = b then p0 + 1 else max (ps.headD 0) c
    v :: lcsRowAux a v bs ps

/-- `lcs_length(seq1, seq2)` (fourth iteration): two-row rolling dynamic
program; each outer step replaces `prev` by the fresh row `cur` whose
leading cell is `0`. -/
def lcs_length {α : Type} [DecidableEq α] (seq1 seq2 : List α) : Nat :=
  if seq1.length = 0 ∨ seq2.length = 0 then 0
  else
    ((seq1.foldl (fun prev a => 0 :: lcsRowAux a 0 seq2 prev)
      (List.replicate (seq2.length + 1) 0)).getLastD 0)

/-- `SimilarityCalculator._lcs(seq1, seq2)` (first iteration): the full
`(m+1)×(n+1)` table; every row is appended to the table and computed from
the previous row by the same recurrence, and the answer is `dp[m][n]`. -/
def _lcs {α : Type} [DecidableEq α] (seq1 seq2 : List α) : Nat :=
  let table := seq1.foldl
    (fun rows a => rows ++ [0 :: lcsRowAux a 0 seq2 (rows.getLastD [])])
    [List.replicate (seq2.length + 1) 0]
  (table.getLastD []).getLastD 0

/-- `similarity_lcs(seq1, seq2)`: `1.0` when both sequences are empty,
`0.0` when exactly one is, else `lcs / max(len, len)`. -/
def similarity_lcs (seq1 seq2 : List String) : ℚ :=
  if seq1 = [] ∧ seq2 = [] then 1
  else if seq1 = [] ∨ seq2 = [] then 0
  else (lcs_length seq1 seq2 : ℚ) / ((max seq1.length seq2.length : Nat) : ℚ)

/-- Python 3 `round(x, 4)` on an exact rational: round half to even at four
decimal places (the binary-float representation step is not modelled). -/
def pyRoundHalfEven (q : ℚ) : ℤ :=
  let f := ⌊q⌋
  if q - (f : ℚ) < 1/2 then f
  else if 1/2 < q - (f : ℚ) then f + 1
  else if f % 2 = 0 then f else f + 1

/-- `round(sim, 4)` as used by `SimilarityCalculator.compute_pair`. -/
def round4 (q : ℚ) : ℚ :=
  (pyRoundHalfEven (q * 10000) : ℚ) / 10000

/-- The record returned by `SimilarityCalculator.compute_pair`. -/
structure PairwiseResult where
  similarity : ℚ
  len_a : Nat
  len_b : Nat
  lcs_len : Nat
deriving DecidableEq, Repr

/-- `SimilarityCalculator.compute_pair(traceA, traceB)` with the calculator's
`include_line_in_token` flag. -/
def compute_pair (include_line : Bool) (traceA traceB : List Entry) :
    PairwiseResult :=
  let tokensA := canonicalize_trace traceA include_line
  let tokensB := canonicalize_trace traceB include_line
  { similarity := round4 (similarity_lcs tokensA tokensB)
    len_a := tokensA.length
    len_b := tokensB.length
    lcs_len := lcs_length tokensA tokensB }

/-- The three program variants of a `ProgramCase`. -/
inductive Variant where
  | original : Variant
  | obfuscated : Variant
  | deobfuscated : Variant
deriving DecidableEq, Repr

/-- The fixed pair list of `CodeAnalyzer.process_file`. -/
def pairsList : List (Variant × Variant × String) :=
  [(Variant.original, Variant.obfuscated, "original_vs_obfuscated"),
   (Variant.obfuscated, Variant.deobfuscated, "obfuscated_vs_deobfuscated"),
   (Variant.deobfuscated, Variant.original, "deobfuscated_vs_original")]

/-- The similarity entries `results[key] = comp["similarity"]` that
`process_file` writes for one `ProgramCase`, given the per-variant raw
traces (`[]` for an absent variant, exactly as `traces_raw[version] = []`
is pre-set and kept on every failure path). -/
def process_file_scores (traces : Variant → List Entry) :
    List (String × ℚ) :=
  pairsList.map (fun p =>
    (p.2.2, (compute_pair false (traces p.1) (traces p.2.1)).similarity))

/-- A concrete `ProgramCase` with only the original variant producing a
trace, used to exercise `process_file_scores`. -/
def exTraces : Variant → List Entry
  | Variant.original => [⟨some (PyVal.str "main"), none, none⟩]
  | _ => []

/-- The token vocabulary of the canonicalizer apart from the `FN:` escape class. -/
def closedVocab : List String :=
  ["OBFUSCATOR_WRAPPER", "HANDLER", "GLOBAL", "PARSE_INT", "TO_STRING",
   "CONSOLE_LOG", "ANON_FN"]

/-- LCS of two sequences read back to front: the quantity the cell
`dp[i][j]` of the dynamic programs holds for the prefixes consumed so far. -/
def lcsE {α : Type} [DecidableEq α] (x y : List α) : Nat :=
  lcsSpec x.reverse y.reverse

/-- The row of prefix-LCS values `lcsE q (z ++ t)` over the prefixes `t` of
the remaining second sequence: the loop invariant of the rolling row. -/
def rowFor {α : Type} [DecidableEq α] (q z : List α) : List α → List Nat
  | [] => [lcsE q z]
  | b :: bs => lcsE q z :: rowFor q (z ++ [b]) bs

/-- The tail of `rowFor` (the cells the inner loop writes, `j = 1` onwards). -/
def rowOut {α : Type} [DecidableEq α] (q z : List α) : List α → List Nat
  | [] => []
  | b :: bs => lcsE q (z ++ [b]) :: rowOut q (z ++ [b]) bs

end TraceAnalysis

namespace TraceAnalysis
variable {α : Type} [DecidableEq α]

theorem lcsSpec_nil_right (x : List α) : lcsSpec x [] = 0 := by
  cases x <;> simp [lcsSpec]

theorem lcsSpec_le (x y : List α) :
    lcsSpec x y ≤ x.length ∧ lcsSpec x y ≤ y.length := by
  induction x, y using lcsSpec.induct with
  | case1 y => simp [lcsSpec]
  | case2 a as => simp [lcsSpec]
  | case3 as b bs ih =>
    simp only [lcsSpec, eq_self_iff_true, if_true, List.length_cons]
    omega
  | case4 a as b bs h ih1 ih2 =>
    simp only [lcsSpec, if_neg h, List.length_cons] at *
    omega

theorem length_le_lcsSpec_of_sublists (x y : List α) :
    ∀ l : List α, l.Sublist x → l.Sublist y → l.length ≤ lcsSpec x y := by
  induction x, y using lcsSpec.induct with
  | case1 y =>
    intro l hx _
    simp [List.sublist_nil.mp hx, lcsSpec]
  | case2 a as =>
    intro l _ hy
    simp [List.sublist_nil.mp hy, lcsSpec]
  | case3 as b bs ih =>
    intro l hx hy
    simp only [lcsSpec, eq_self_iff_true, if_true]
    cases hx with
    | cons _ hx' =>
      cases hy with
      | cons _ hy' =>
        have := ih l hx' hy'
        omega
      | cons₂ _ hy' =>
        rename_i l'
        have hl'x : l'.Sublist as := ((List.sublist_cons_self b l').trans hx')
        have := ih l' hl'x hy'
        simp only [List.length_cons]
        omega
    | cons₂ _ hx' =>
      rename_i l'
      have hl'y : l'.Sublist bs := by
        cases hy with
        | cons _ hy' => exact (List.sublist_cons_self b l').trans hy'
        | cons₂ _ hy' => exact hy'
      have := ih l' hx' hl'y
      simp only [List.length_cons]
      omega
  | case4 a as b bs h ih1 ih2 =>
    intro l hx hy
    simp only [lcsSpec, if_neg h]
    cases hy with
    | cons _ hy' =>
      have := ih1 l hx hy'
      omega
    | cons₂ _ hy' =>
      rename_i l'
      cases hx with
      | cons _ hx' =>
        have := ih2 (b :: l') hx' (List.Sublist.cons₂ b hy')
        omega
      | cons₂ _ hx' => exact absurd rfl h

theorem exists_common_sublist (x y : List α) :
    ∃ l : List α, l.Sublist x ∧ l.Sublist y ∧ l.length = lcsSpec x y := by
  induction x, y using lcsSpec.induct with
  | case1 y => exact ⟨[], List.nil_sublist _, List.nil_sublist _, by simp [lcsSpec]⟩
  | case2 a as => exact ⟨[], List.nil_sublist _, List.nil_sublist _, by simp [lcsSpec]⟩
  | case3 as b bs ih =>
    obtain ⟨l, h1, h2, h3⟩ := ih
    exact ⟨b :: l, List.Sublist.cons₂ b h1, List.Sublist.cons₂ b h2, by
      simp [lcsSpec, h3]⟩
  | case4 a as b bs h ih1 ih2 =>
    obtain ⟨l1, h11, h12, h13⟩ := ih1
    obtain ⟨l2, h21, h22, h23⟩ := ih2
    by_cases hc : lcsSpec as (b :: bs) ≤ lcsSpec (a :: as) bs
    · refine ⟨l1, h11, List.Sublist.cons b h12, ?_⟩
      simp only [lcsSpec, if_neg h]
      omega
    · refine ⟨l2, List.Sublist.cons a h21, h22, ?_⟩
      simp only [lcsSpec, if_neg h]
      omega

end TraceAnalysis

namespace TraceAnalysis
variable {α : Type} [DecidableEq α]

theorem lcsSpec_symm (x y : List α) : lcsSpec x y = lcsSpec y x := by
  apply Nat.le_antisymm
  · obtain ⟨l, h1, h2, h3⟩ := exists_common_sublist x y
    rw [← h3]
    exact length_le_lcsSpec_of_sublists y x l h2 h1
  · obtain ⟨l, h1, h2, h3⟩ := exists_common_sublist y x
    rw [← h3]
    exact length_le_lcsSpec_of_sublists x y l h2 h1

theorem lcsSpec_reverse (x y : List α) :
    lcsSpec x.reverse y.reverse = lcsSpec x y := by
  apply Nat.le_antisymm
  · obtain ⟨l, h1, h2, h3⟩ := exists_common_sublist x.reverse y.reverse
    rw [← h3, ← l.length_reverse]
    exact length_le_lcsSpec_of_sublists x y l.reverse
      (by simpa using h1.reverse) (by simpa using h2.reverse)
  · obtain ⟨l, h1, h2, h3⟩ := exists_common_sublist x y
    rw [← h3, ← l.length_reverse]
    exact length_le_lcsSpec_of_sublists x.reverse y.reverse l.reverse
      h1.reverse h2.reverse

end TraceAnalysis

namespace TraceAnalysis
variable {α : Type} [DecidableEq α]

theorem lcsE_nil_left (y : List α) : lcsE [] y = 0 := by
  simp [lcsE, lcsSpec]

theorem lcsE_nil_right (x : List α) : lcsE x [] = 0 := by
  simp [lcsE, lcsSpec_nil_right]

theorem lcsE_eq_lcsSpec (x y : List α) : lcsE x y = lcsSpec x y :=
  lcsSpec_reverse x y

theorem lcsE_snoc (p z : List α) (a b : α) :
    lcsE (p ++ [a]) (z ++ [b]) =
      if a = b then lcsE p z + 1
      else max (lcsE p (z ++ [b])) (lcsE (p ++ [a]) z) := by
  simp only [lcsE, List.reverse_append, List.reverse_cons, List.reverse_nil,
    List.nil_append, List.singleton_append]
  by_cases h : a = b
  · simp [lcsSpec, h]
  · simp only [lcsSpec, if_neg h]
    exact Nat.max_comm _ _

theorem rowFor_cons_out (q : List α) : ∀ (s2 z : List α),
    rowFor q z s2 = lcsE q z :: rowOut q z s2 := by
  intro s2
  induction s2 with
  | nil => intro z; simp [rowFor, rowOut]
  | cons b bs ih => intro z; simp [rowFor, rowOut, ih]

theorem lcsRowAux_spec (p : List α) (a : α) : ∀ (bs z : List α),
    lcsRowAux a (lcsE (p ++ [a]) z) bs (rowFor p z bs) = rowOut (p ++ [a]) z bs := by
  intro bs
  induction bs with
  | nil => intro z; simp [rowFor, rowOut, lcsRowAux]
  | cons b bs ih =>
    intro z
    rw [rowFor]
    rw [lcsRowAux]
    have hhd : (rowFor p (z ++ [b]) bs).headD 0 = lcsE p (z ++ [b]) := by
      rw [rowFor_cons_out]; rfl
    rw [rowOut]
    congr 1
    · rw [hhd, lcsE_snoc]
    · rw [hhd, ← lcsE_snoc]
      exact ih (z ++ [b])

theorem foldl_row_aux (s2 : List α) : ∀ (l p : List α),
    l.foldl (fun prev a => 0 :: lcsRowAux a 0 s2 prev) (rowFor p [] s2) =
      rowFor (p ++ l) [] s2 := by
  intro l
  induction l with
  | nil => intro p; simp
  | cons a l ih =>
    intro p
    have hstep : (0 :: lcsRowAux a 0 s2 (rowFor p [] s2)) = rowFor (p ++ [a]) [] s2 := by
      rw [rowFor_cons_out (p ++ [a]) s2 []]
      rw [show (0 : Nat) = lcsE (p ++ [a]) [] from (lcsE_nil_right _).symm]
      rw [lcsRowAux_spec p a s2 []]
    calc (a :: l).foldl (fun prev a => 0 :: lcsRowAux a 0 s2 prev) (rowFor p [] s2)
        = l.foldl (fun prev a => 0 :: lcsRowAux a 0 s2 prev) (rowFor (p ++ [a]) [] s2) := by
          rw [List.foldl_cons, hstep]
      _ = rowFor ((p ++ [a]) ++ l) [] s2 := ih (p ++ [a])
      _ = rowFor (p ++ a :: l) [] s2 := by rw [List.append_assoc]; rfl

theorem rowFor_nil_left : ∀ (s2 z : List α),
    rowFor ([] : List α) z s2 = List.replicate (s2.length + 1) 0 := by
  intro s2
  induction s2 with
  | nil => intro z; simp [rowFor, lcsE_nil_left, List.replicate]
  | cons b bs ih =>
    intro z
    simp [rowFor, lcsE_nil_left, List.replicate, ih]

theorem rowFor_getLastD (q : List α) : ∀ (s2 z : List α) (d : Nat),
    (rowFor q z s2).getLastD d = lcsE q (z ++ s2) := by
  intro s2
  induction s2 with
  | nil => intro z d; simp [rowFor]
  | cons b bs ih =>
    intro z d
    rw [rowFor, List.getLastD_cons, ih (z ++ [b]) (lcsE q z)]
    rw [List.append_assoc]
    rfl

theorem lcs_length_eq_lcsSpec (s1 s2 : List α) :
    lcs_length s1 s2 = lcsSpec s1 s2 := by
  rw [lcs_length]
  by_cases h : s1.length = 0 ∨ s2.length = 0
  · rw [if_pos h]
    rcases h with h | h
    · rw [List.length_eq_zero.mp h]; simp [lcsSpec]
    · rw [List.length_eq_zero.mp h, lcsSpec_nil_right]
  · rw [if_neg h, ← rowFor_nil_left s2 [],
      show rowFor ([] : List α) [] s2 = rowFor ([] ++ []) [] s2 from rfl]
    rw [foldl_row_aux s2 s1 ([] ++ []), rowFor_getLastD]
    simp [lcsE_eq_lcsSpec]

theorem foldl_table_aux (s2 : List α) : ∀ (l : List α) (rows : List (List Nat)) (r0 : List Nat),
    ((l.foldl (fun rows a => rows ++ [0 :: lcsRowAux a 0 s2 (rows.getLastD [])])
        (rows ++ [r0])).getLastD []) =
      l.foldl (fun prev a => 0 :: lcsRowAux a 0 s2 prev) r0 := by
  intro l
  induction l with
  | nil => intro rows r0; simp [List.getLastD_concat]
  | cons a l ih =>
    intro rows r0
    rw [List.foldl_cons, List.foldl_cons]
    rw [show (rows ++ [r0]).getLastD [] = r0 from List.getLastD_concat _ _ _]
    exact ih (rows ++ [r0]) (0 :: lcsRowAux a 0 s2 r0)

theorem lcs_full_eq_lcsSpec (s1 s2 : List α) :
    _lcs s1 s2 = lcsSpec s1 s2 := by
  rw [_lcs]
  have h := foldl_table_aux s2 s1 [] (List.replicate (s2.length + 1) 0)
  simp only [List.nil_append] at h
  rw [h, ← rowFor_nil_left s2 [],
    show rowFor ([] : List α) [] s2 = rowFor ([] ++ []) [] s2 from rfl,
    foldl_row_aux s2 s1 ([] ++ []), rowFor_getLastD]
  simp [lcsE_eq_lcsSpec]

end TraceAnalysis

namespace TraceAnalysis

theorem lcs_length_le_min (A B : List String) :
    lcs_length A B ≤ min A.length B.length := by
  rw [lcs_length_eq_lcsSpec]
  exact Nat.le_min.mpr (lcsSpec_le A B)

theorem similarity_nonneg (A B : List String) : 0 ≤ similarity_lcs A B := by
  rw [similarity_lcs]
  split_ifs with h1 h2
  · norm_num
  · norm_num
  · exact div_nonneg (Nat.cast_nonneg _) (Nat.cast_nonneg _)

theorem similarity_le_one (A B : List String) : similarity_lcs A B ≤ 1 := by
  rw [similarity_lcs]
  split_ifs with h1 h2
  · norm_num
  · norm_num
  · push_neg at h2
    have hA : 0 < A.length := List.length_pos.mpr h2.1
    have hB : 0 < B.length := List.length_pos.mpr h2.2
    rw [div_le_one (by exact_mod_cast Nat.lt_of_lt_of_le hA (Nat.le_max_left _ _))]
    exact_mod_cast Nat.le_trans (lcs_length_le_min A B)
      (Nat.le_trans (Nat.min_le_left _ _) (Nat.le_max_left _ _))

/-- C1: for every pair of canonical token sequences `A` and `B`,
`similarity_lcs` returns `1.0` when both are empty, `0.0` when exactly one
is empty, and otherwise `lcs_length A B / max (len A) (len B)` — the
denominator is the longer sequence's length — and the result always lies in
`[0, 1]`. -/
theorem similarity_lcs_cases (A B : List String) :
    (A = [] ∧ B = [] → similarity_lcs A B = 1) ∧
    ((A = [] ∧ B ≠ []) ∨ (A ≠ [] ∧ B = []) → similarity_lcs A B = 0) ∧
    (A ≠ [] ∧ B ≠ [] →
      similarity_lcs A B =
        (lcs_length A B : ℚ) / ((max A.length B.length : Nat) : ℚ) ∧
      0 ≤ similarity_lcs A B ∧ similarity_lcs A B ≤ 1) := by
  refine ⟨fun h => by simp [similarity_lcs, h.1, h.2], fun h => ?_, fun h => ?_⟩
  · rw [similarity_lcs]
    rcases h with ⟨h1, h2⟩ | ⟨h1, h2⟩ <;> simp [h1, h2]
  · refine ⟨?_, similarity_nonneg A B, similarity_le_one A B⟩
    rw [similarity_lcs, if_neg (fun hc => h.1 hc.1), if_neg (by tauto)]

theorem similarity_lcs_cases_witness :
    similarity_lcs [] [] = 1 ∧ similarity_lcs [] ["x"] = 0 ∧
    (similarity_lcs ["a"] ["a", "b"] =
        (lcs_length ["a"] ["a", "b"] : ℚ) / ((max 1 2 : Nat) : ℚ) ∧
      0 ≤ similarity_lcs ["a"] ["a", "b"] ∧
      similarity_lcs ["a"] ["a", "b"] ≤ 1) :=
  ⟨(similarity_lcs_cases [] []).1 ⟨rfl, rfl⟩,
   (similarity_lcs_cases [] ["x"]).2.1 (Or.inl ⟨rfl, by decide⟩),
   (similarity_lcs_cases ["a"] ["a", "b"]).2.2 ⟨by decide, by decide⟩⟩

/-- C7: `similarity_lcs` is symmetric — for all token sequences `A` and
`B`, `similarity_lcs A B = similarity_lcs B A`. -/
theorem similarity_lcs_symm (A B : List String) :
    similarity_lcs A B = similarity_lcs B A := by
  rw [similarity_lcs, similarity_lcs]
  by_cases h1 : A = [] <;> by_cases h2 : B = []
  · simp [h1, h2]
  · simp [h1, h2]
  · simp [h1, h2]
  · rw [if_neg (by tauto), if_neg (by tauto), if_neg (by tauto), if_neg (by tauto)]
    rw [lcs_length_eq_lcsSpec, lcs_length_eq_lcsSpec, lcsSpec_symm, Nat.max_comm]

/-- C8: for all token sequences `A` and `B`,
`lcs_length A B ≤ min (len A) (len B)`, and together with the non-empty
branch of the similarity this yields `0 ≤ similarity_lcs A B ≤ 1`. -/
theorem lcs_le_min_and_similarity_bounded (A B : List String) :
    lcs_length A B ≤ min A.length B.length ∧
    0 ≤ similarity_lcs A B ∧ similarity_lcs A B ≤ 1 :=
  ⟨lcs_length_le_min A B, similarity_nonneg A B, similarity_le_one A B⟩

/-- C9: the two-row rolling-array `lcs_length` returns, on every pair of
token sequences, exactly the value of the full-table reference dynamic
program `_lcs` of `SimilarityCalculator`. -/
theorem lcs_length_eq_full_table (A B : List String) :
    lcs_length A B = _lcs A B := by
  rw [lcs_length_eq_lcsSpec, lcs_full_eq_lcsSpec]

end TraceAnalysis

namespace TraceAnalysis

theorem merge_traces_eq_flatten (ts : List (List PyJson)) :
    merge_traces ts = ts.flatten := by
  rw [merge_traces]
  suffices h : ∀ acc : List PyJson, ts.foldl (· ++ ·) acc = acc ++ ts.flatten by
    simpa using h []
  induction ts with
  | nil => intro acc; simp
  | cons t ts ih => intro acc; simp [List.foldl_cons, ih, List.append_assoc]

theorem flatten_filterMap_getD (g : String → Option (List PyJson)) :
    ∀ ls : List String,
      (ls.filterMap g).flatten = (ls.map (fun l => (g l).getD [])).flatten := by
  intro ls
  induction ls with
  | nil => rfl
  | cons l ls ih =>
    cases hg : g l with
    | none => simp [List.filterMap_cons, hg, ih]
    | some xs => simp [List.filterMap_cons, hg, ih]

theorem lineTrace_getD (decode : String → Option PyJson) (line : String) :
    (lineTrace decode line).getD [] =
      (if pyStrip line = "" then []
       else
         match decode (pyStrip line) with
         | some (PyJson.arr xs) => if xs.all isJsonObj then xs else []
         | _ => []) := by
  rw [lineTrace]
  by_cases h : pyStrip line = ""
  · simp [h]
  · simp only [if_neg h]
    cases hd : decode (pyStrip line) with
    | none => rfl
    | some j =>
      cases j with
      | arr xs =>
        show (if xs.all isJsonObj = true then some xs else none).getD [] =
          (if xs.all isJsonObj = true then xs else [])
        split_ifs <;> rfl
      | null => rfl
      | bool b => rfl
      | num q => rfl
      | str s => rfl
      | obj kvs => rfl

/-- C3: for every raw diagnostic text and every behaviour of the
structured decoder, the parser keeps exactly the lines that strip to a
non-empty string and decode to an array whose every element is a record,
and the merged trace is the concatenation of all such arrays in source-line
order (merge-all); empty, malformed, non-array and mixed-array lines are
skipped without affecting later lines, and the parse is total. -/
theorem trace_parse_merge_all (decode : String → Option PyJson)
    (stderr_text : String) :
    merge_traces (parse_json_lines_from_stderr decode stderr_text) =
      specMergeAll decode stderr_text := by
  rw [merge_traces_eq_flatten, parse_json_lines_from_stderr, specMergeAll,
    flatten_filterMap_getD]
  congr 1
  exact List.map_congr_left (fun l _ => lineTrace_getD decode l)

theorem round4_zero : round4 0 = 0 := by
  norm_num [round4, pyRoundHalfEven]

theorem round4_one : round4 1 = 1 := by
  norm_num [round4, pyRoundHalfEven]

end TraceAnalysis

namespace TraceAnalysis

theorem similarity_empty_left {tB : List String} (h : tB ≠ []) :
    similarity_lcs [] tB = 0 := by
  rw [similarity_lcs, if_neg (fun hc => h hc.2), if_pos (Or.inl rfl)]

theorem similarity_empty_right {tA : List String} (h : tA ≠ []) :
    similarity_lcs tA [] = 0 := by
  rw [similarity_lcs, if_neg (fun hc => h hc.1), if_pos (Or.inr rfl)]

theorem compute_pair_sim_both_absent :
    (compute_pair false [] []).similarity = 1 := by
  show round4 (similarity_lcs (canonicalize_trace [] false) (canonicalize_trace [] false)) = 1
  rw [show canonicalize_trace [] false = [] from rfl]
  rw [show similarity_lcs [] [] = 1 from rfl, round4_one]

theorem compute_pair_sim_absent_present {tB : List Entry}
    (h : canonicalize_trace tB false ≠ []) :
    (compute_pair false [] tB).similarity = 0 := by
  show round4 (similarity_lcs (canonicalize_trace [] false) (canonicalize_trace tB false)) = 0
  rw [show canonicalize_trace [] false = [] from rfl, similarity_empty_left h,
    round4_zero]

theorem compute_pair_sim_present_absent {tA : List Entry}
    (h : canonicalize_trace tA false ≠ []) :
    (compute_pair false tA []).similarity = 0 := by
  show round4 (similarity_lcs (canonicalize_trace tA false) (canonicalize_trace [] false)) = 0
  rw [show canonicalize_trace [] false = [] from rfl, similarity_empty_right h,
    round4_zero]

/-- C2: for every `ProgramCase` — whatever raw traces its variants
produced, an absent variant standing as the empty list — the emitted report
always carries all three pairwise keys, each bound to the computed
similarity; a pair of absent variants scores `1.0`, and an absent variant
against one with a non-empty token sequence scores `0.0`; no key is ever
missing. -/
theorem process_file_fixed_triad (traces : Variant → List Entry) :
    ((process_file_scores traces).lookup "original_vs_obfuscated").isSome = true ∧
    ((process_file_scores traces).lookup "obfuscated_vs_deobfuscated").isSome = true ∧
    ((process_file_scores traces).lookup "deobfuscated_vs_original").isSome = true ∧
    (∀ a b key, (a, b, key) ∈ pairsList →
      (process_file_scores traces).lookup key =
        some ((compute_pair false (traces a) (traces b)).similarity) ∧
      (traces a = [] → traces b = [] →
        (process_file_scores traces).lookup key = some 1) ∧
      (traces a = [] → canonicalize_trace (traces b) false ≠ [] →
        (process_file_scores traces).lookup key = some 0) ∧
      (canonicalize_trace (traces a) false ≠ [] → traces b = [] →
        (process_file_scores traces).lookup key = some 0)) := by
  have h1 : (process_file_scores traces).lookup "original_vs_obfuscated" =
      some ((compute_pair false (traces Variant.original) (traces Variant.obfuscated)).similarity) := rfl
  have h2 : (process_file_scores traces).lookup "obfuscated_vs_deobfuscated" =
      some ((compute_pair false (traces Variant.obfuscated) (traces Variant.deobfuscated)).similarity) := rfl
  have h3 : (process_file_scores traces).lookup "deobfuscated_vs_original" =
      some ((compute_pair false (traces Variant.deobfuscated) (traces Variant.original)).similarity) := rfl
  refine ⟨by rw [h1]; rfl, by rw [h2]; rfl, by rw [h3]; rfl, ?_⟩
  intro a b key hmem
  have hkey : (a = Variant.original ∧ b = Variant.obfuscated ∧ key = "original_vs_obfuscated") ∨
      (a = Variant.obfuscated ∧ b = Variant.deobfuscated ∧ key = "obfuscated_vs_deobfuscated") ∨
      (a = Variant.deobfuscated ∧ b = Variant.original ∧ key = "deobfuscated_vs_original") := by
    simpa [pairsList, Prod.ext_iff] using hmem
  rcases hkey with ⟨ha, hb, hk⟩ | ⟨ha, hb, hk⟩ | ⟨ha, hb, hk⟩ <;>
    subst ha <;> subst hb <;> subst hk <;>
    [skip; skip; skip] <;>
    refine ⟨by first | exact h1 | exact h2 | exact h3, ?_, ?_, ?_⟩ <;>
    intro hx hy
  · rw [h1, hx, hy, compute_pair_sim_both_absent]
  · rw [h1, hx, compute_pair_sim_absent_present hy]
  · rw [h1, hy, compute_pair_sim_present_absent hx]
  · rw [h2, hx, hy, compute_pair_sim_both_absent]
  · rw [h2, hx, compute_pair_sim_absent_present hy]
  · rw [h2, hy, compute_pair_sim_present_absent hx]
  · rw [h3, hx, hy, compute_pair_sim_both_absent]
  · rw [h3, hx, compute_pair_sim_absent_present hy]
  · rw [h3, hy, compute_pair_sim_present_absent hx]

end TraceAnalysis

namespace TraceAnalysis

theorem process_file_fixed_triad_witness :
    (process_file_scores exTraces).lookup "original_vs_obfuscated" = some 0 ∧
    (process_file_scores exTraces).lookup "obfuscated_vs_deobfuscated" = some 1 ∧
    (process_file_scores exTraces).lookup "deobfuscated_vs_original" = some 0 := by
  have h := (process_file_fixed_triad exTraces).2.2.2
  refine ⟨?_, ?_, ?_⟩
  · exact (h Variant.original Variant.obfuscated "original_vs_obfuscated"
      (by decide)).2.2.2 (by decide) rfl
  · exact (h Variant.obfuscated Variant.deobfuscated "obfuscated_vs_deobfuscated"
      (by decide)).2.1 rfl rfl
  · exact (h Variant.deobfuscated Variant.original "deobfuscated_vs_original"
      (by decide)).2.2.1 rfl (by decide)

end TraceAnalysis

namespace TraceAnalysis

theorem char_toNat_ofNat {n : Nat} (h : n < 55296) : (Char.ofNat n).toNat = n := by
  rw [Char.ofNat, dif_pos (Or.inl h)]
  rfl

theorem toLower_toNat (c : Char) :
    c.toLower.toNat = if 65 ≤ c.toNat ∧ c.toNat ≤ 90 then c.toNat + 32 else c.toNat := by
  rw [Char.toLower]
  by_cases h : 65 ≤ c.toNat ∧ c.toNat ≤ 90
  · rw [if_pos ⟨h.1, h.2⟩, if_pos h]
    exact char_toNat_ofNat (by omega)
  · rw [if_neg (fun hc => h ⟨hc.1, hc.2⟩), if_neg h]

theorem toLower_eq_self_of_not_upper {c : Char}
    (h : ¬(65 ≤ c.toNat ∧ c.toNat ≤ 90)) : c.toLower = c := by
  rw [Char.toLower, if_neg (fun hc => h ⟨hc.1, hc.2⟩)]

theorem toLower_idem (c : Char) : c.toLower.toLower = c.toLower := by
  by_cases h : 65 ≤ c.toNat ∧ c.toNat ≤ 90
  · apply toLower_eq_self_of_not_upper
    rw [toLower_toNat, if_pos h]
    omega
  · rw [toLower_eq_self_of_not_upper h, toLower_eq_self_of_not_upper h]

theorem isPySpace_toLower (c : Char) : isPySpace c.toLower = isPySpace c := by
  rw [isPySpace, isPySpace, toLower_toNat]
  by_cases h : 65 ≤ c.toNat ∧ c.toNat ≤ 90
  · rw [if_pos h]
    have hL : (decide (c.toNat + 32 = 32) || decide (c.toNat + 32 = 9) ||
        decide (c.toNat + 32 = 10) || decide (c.toNat + 32 = 13) ||
        decide (c.toNat + 32 = 11) || decide (c.toNat + 32 = 12)) = false := by
      simp only [Bool.or_eq_false_iff, decide_eq_false_iff_not]
      omega
    have hR : (decide (c.toNat = 32) || decide (c.toNat = 9) ||
        decide (c.toNat = 10) || decide (c.toNat = 13) ||
        decide (c.toNat = 11) || decide (c.toNat = 12)) = false := by
      simp only [Bool.or_eq_false_iff, decide_eq_false_iff_not]
      omega
    rw [hL, hR]
  · rw [if_neg h]

theorem map_toLower_idem (l : List Char) :
    (l.map Char.toLower).map Char.toLower = l.map Char.toLower := by
  rw [List.map_map]
  exact List.map_congr_left (fun c _ => toLower_idem c)

theorem pyStripL_map_toLower (l : List Char) :
    pyStripL (l.map Char.toLower) = (pyStripL l).map Char.toLower := by
  have hp : (isPySpace ∘ Char.toLower) = isPySpace := funext isPySpace_toLower
  rw [pyStripL, pyStripL, List.dropWhile_map, hp, ← List.map_reverse,
    List.dropWhile_map, hp, ← List.map_reverse]

theorem isPrefixOf_map_of_isPrefixOf {p l : List Char} (f : Char → Char)
    (h : p.isPrefixOf l = true) : (p.map f).isPrefixOf (l.map f) = true := by
  induction p generalizing l with
  | nil => simp [List.isPrefixOf]
  | cons a as ih =>
    cases l with
    | nil => simp [List.isPrefixOf] at h
    | cons b bs =>
      have h' : (a == b && as.isPrefixOf bs) = true := h
      rw [Bool.and_eq_true] at h'
      have hab : a = b := eq_of_beq h'.1
      show (f a == f b && (as.map f).isPrefixOf (bs.map f)) = true
      rw [Bool.and_eq_true]
      exact ⟨by rw [hab]; exact beq_self_eq_true _, ih h'.2⟩

end TraceAnalysis

namespace TraceAnalysis

theorem obfMatchL_map_toLower {l : List Char} (h : obfMatchL l = true) :
    obfMatchL (l.map Char.toLower) = true := by
  rw [obfMatchL, Bool.or_eq_true, Bool.or_eq_true] at h
  rw [obfMatchL, Bool.or_eq_true, Bool.or_eq_true]
  rcases h with (h | h) | h
  · exact Or.inl (Or.inl (by
      have := isPrefixOf_map_of_isPrefixOf Char.toLower h
      rwa [show "a0_0x".toList.map Char.toLower = "a0_0x".toList from by decide] at this))
  · exact Or.inl (Or.inr (by
      have := isPrefixOf_map_of_isPrefixOf Char.toLower h
      rwa [show "_0x".toList.map Char.toLower = "_0x".toList from by decide] at this))
  · exact Or.inr (by
      have := isPrefixOf_map_of_isPrefixOf Char.toLower h
      rwa [show "0x".toList.map Char.toLower = "0x".toList from by decide] at this)

theorem canonicalize_entry_unfold (e : Entry) :
    canonicalize_entry e =
      (if obfMatchL (pyStripL (entryName e).toList) then "OBFUSCATOR_WRAPPER"
       else
        match classifyKeyword ((pyStripL (entryName e).toList).map Char.toLower) with
        | some t => t
        | none =>
          String.mk ("FN:".toList ++
            (if (pyStripL (entryName e).toList).map escapeChar = [] then
              "FN_UNKNOWN".toList
             else (pyStripL (entryName e).toList).map escapeChar))) := rfl

theorem canonicalize_entry_congr {e e' : Entry}
    (h : entryName e = entryName e') :
    canonicalize_entry e = canonicalize_entry e' := by
  rw [canonicalize_entry_unfold, canonicalize_entry_unfold, h]

theorem classifyKeyword_mem_closedVocab {low : List Char} {t : String}
    (h : classifyKeyword low = some t) : t ∈ closedVocab := by
  rw [classifyKeyword] at h
  split_ifs at h <;> simp_all [closedVocab]

end TraceAnalysis

namespace TraceAnalysis

theorem isWordChar_escapeChar (c : Char) : isWordChar (escapeChar c) = true := by
  rw [escapeChar]
  by_cases h : isWordChar c = true
  · rw [if_pos h]; exact h
  · rw [if_neg h]; decide

/-- C6: `canonicalize_entry` is total and deterministic: every trace
record maps to exactly one token, which is either in the closed vocabulary
or an `FN:`-token whose non-empty suffix consists only of characters in
`[0-9a-zA-Z_]` (every other character having been escaped to `_`); a name
that strips to nothing yields `FN:FN_UNKNOWN`, and otherwise the fallback
suffix is exactly the escaped stripped name. -/
theorem canonicalize_entry_total_shape (e : Entry) :
    (canonicalize_entry e ∈ closedVocab ∨
      ∃ s : List Char, canonicalize_entry e = String.mk ("FN:".toList ++ s) ∧
        s ≠ [] ∧ ∀ c ∈ s, isWordChar c = true) ∧
    (pyStripL (entryName e).toList = [] →
      canonicalize_entry e = "FN:FN_UNKNOWN") ∧
    (canonicalize_entry e ∉ closedVocab → pyStripL (entryName e).toList ≠ [] →
      canonicalize_entry e =
        String.mk ("FN:".toList ++ (pyStripL (entryName e).toList).map escapeChar)) := by
  rw [canonicalize_entry_unfold]
  by_cases hobf : obfMatchL (pyStripL (entryName e).toList) = true
  · rw [if_pos hobf]
    refine ⟨Or.inl (by decide), fun hnil => ?_, fun hnv _ => absurd (by decide) hnv⟩
    rw [hnil] at hobf
    exact absurd hobf (by decide)
  · rw [if_neg hobf]
    cases hcl : classifyKeyword ((pyStripL (entryName e).toList).map Char.toLower) with
    | some t =>
      refine ⟨Or.inl (classifyKeyword_mem_closedVocab hcl), fun hnil => ?_,
        fun hnv _ => absurd (classifyKeyword_mem_closedVocab hcl) hnv⟩
      rw [hnil] at hcl
      simp only [List.map_nil] at hcl
      rw [show classifyKeyword [] = none from by decide] at hcl
      exact Option.noConfusion hcl
    | none =>
      by_cases hnil : pyStripL (entryName e).toList = []
      · rw [hnil]
        simp only [List.map_nil, if_true]
        exact ⟨Or.inr ⟨"FN_UNKNOWN".toList, rfl, by decide, by decide⟩,
          fun _ => by decide, fun _ hne => absurd rfl hne⟩
      · have hmape : (pyStripL (entryName e).toList).map escapeChar ≠ [] := by
          simpa using hnil
        rw [if_neg hmape]
        refine ⟨Or.inr ⟨(pyStripL (entryName e).toList).map escapeChar, rfl, hmape, ?_⟩,
          fun hn => absurd hn hnil, fun _ _ => rfl⟩
        intro c hc
        obtain ⟨c', _, rfl⟩ := List.mem_map.mp hc
        exact isWordChar_escapeChar c'

end TraceAnalysis

namespace TraceAnalysis

theorem canonicalize_entry_total_shape_witness :
    canonicalize_entry ⟨none, none, none⟩ = "FN:FN_UNKNOWN" ∧
    canonicalize_entry ⟨some (PyVal.str "my-func"), none, none⟩ =
      String.mk ("FN:".toList ++
        (pyStripL (entryName ⟨some (PyVal.str "my-func"), none, none⟩).toList).map
          escapeChar) :=
  ⟨(canonicalize_entry_total_shape ⟨none, none, none⟩).2.1 (by decide),
   (canonicalize_entry_total_shape ⟨some (PyVal.str "my-func"), none, none⟩).2.2
     (by decide) (by decide)⟩

theorem canonicalize_entry_wrapper {e : Entry}
    (h : obfMatchL (pyStripL (entryName e).toList) = true) :
    canonicalize_entry e = "OBFUSCATOR_WRAPPER" := by
  rw [canonicalize_entry_unfold, if_pos h]

/-- C5: a trace whose every record has an obfuscator-shaped function name
canonicalizes to the empty token sequence — every `OBFUSCATOR_WRAPPER`
token is dropped — and therefore scores similarity `1.0` against an empty
trace. -/
theorem wrapper_only_trace_empty (raw : List Entry) (include_line : Bool)
    (h : ∀ e ∈ raw, obfMatchL (pyStripL (entryName e).toList) = true) :
    canonicalize_trace raw include_line = [] ∧
    similarity_lcs (canonicalize_trace raw include_line) [] = 1 := by
  have hz : canonicalize_trace raw include_line = [] := by
    rw [canonicalize_trace, List.filterMap_eq_nil_iff]
    intro e he
    have hw := canonicalize_entry_wrapper (h e he)
    simp [hw]
  refine ⟨hz, ?_⟩
  rw [hz]
  rfl

theorem wrapper_only_trace_empty_witness :
    canonicalize_trace [⟨some (PyVal.str "_0xabc123"), none, none⟩] false = [] ∧
    similarity_lcs
      (canonicalize_trace [⟨some (PyVal.str "_0xabc123"), none, none⟩] false) [] = 1 :=
  wrapper_only_trace_empty [⟨some (PyVal.str "_0xabc123"), none, none⟩] false
    (by decide)

/-- C10: the name `canonicalize_entry` classifies is the record's
`function` value when truthy, else the `event` value, else the empty
string, with non-string values coerced through `str()`; so records carrying
only an `event` key are tokenized exactly like function records. -/
theorem entry_name_fallback (v : PyVal) (ev li : Option PyVal) :
    (pyTruthy v = true → entryName ⟨some v, ev, li⟩ = pyStr v) ∧
    (pyTruthy v = false → entryName ⟨some v, ev, li⟩ = entryName ⟨none, ev, li⟩) ∧
    (entryName ⟨none, some v, li⟩ = entryName ⟨some v, none, li⟩) ∧
    (entryName ⟨none, none, li⟩ = "") ∧
    (canonicalize_entry ⟨none, some v, li⟩ =
      canonicalize_entry ⟨some v, none, li⟩) := by
  have h3 : entryName ⟨none, some v, li⟩ = entryName ⟨some v, none, li⟩ := by
    cases v with
    | none => rfl
    | bool b => cases b <;> rfl
    | int n =>
      by_cases hn : n = 0
      · subst hn; rfl
      · simp [entryName, pyTruthy, pyStr, hn]
    | str s =>
      by_cases hs : s = ""
      · subst hs; rfl
      · simp [entryName, pyTruthy, pyStr, hs]
  refine ⟨fun ht => ?_, fun hf => ?_, h3, rfl, canonicalize_entry_congr h3⟩
  · cases v with
    | none => simp [pyTruthy] at ht
    | bool b => cases b <;> simp_all [entryName, pyTruthy, pyStr]
    | int n => simp_all [entryName, pyTruthy, pyStr]
    | str s => simp_all [entryName, pyTruthy, pyStr]
  · cases v <;> simp_all [entryName, pyTruthy]

theorem entry_name_fallback_witness :
    entryName ⟨some (PyVal.int 7), none, none⟩ = pyStr (PyVal.int 7) ∧
    entryName ⟨some (PyVal.str ""), some (PyVal.str "data"), none⟩ =
      entryName ⟨none, some (PyVal.str "data"), none⟩ ∧
    canonicalize_entry ⟨none, some (PyVal.str "data"), none⟩ =
      canonicalize_entry ⟨some (PyVal.str "data"), none, none⟩ :=
  ⟨(entry_name_fallback (PyVal.int 7) none none).1 (by decide),
   (entry_name_fallback (PyVal.str "") (some (PyVal.str "data")) none).2.1 (by decide),
   (entry_name_fallback (PyVal.str "data") none none).2.2.2.2⟩

end TraceAnalysis

namespace TraceAnalysis

theorem entryName_str {s : String} (hs : s ≠ "") (ev li : Option PyVal) :
    entryName ⟨some (PyVal.str s), ev, li⟩ = s := by
  simp [entryName, pyTruthy, hs]

theorem classifyKeyword_ne_wrapper {low : List Char} {t : String}
    (h : classifyKeyword low = some t) : t ≠ "OBFUSCATOR_WRAPPER" := by
  rw [classifyKeyword] at h
  split_ifs at h <;>
    first
    | exact Option.noConfusion h
    | (rw [Option.some.injEq] at h; subst h; decide)

theorem fn_form_not_mem_closedVocab (x : List Char) :
    String.mk ("FN:".toList ++ x) ∉ closedVocab := by
  intro h
  simp only [closedVocab, List.mem_cons, List.not_mem_nil, or_false] at h
  have hF : (String.mk ("FN:".toList ++ x)).toList.headD 'Z' = 'F' := rfl
  rcases h with h | h | h | h | h | h | h <;> rw [h] at hF <;>
    exact absurd hF (by decide)

theorem canonicalize_entry_wrapper_mp {e : Entry}
    (h : canonicalize_entry e = "OBFUSCATOR_WRAPPER") :
    obfMatchL (pyStripL (entryName e).toList) = true := by
  by_contra hobf
  rw [canonicalize_entry_unfold, if_neg hobf] at h
  cases hcl : classifyKeyword ((pyStripL (entryName e).toList).map Char.toLower) with
  | some t =>
    rw [hcl] at h
    exact classifyKeyword_ne_wrapper hcl h
  | none =>
    rw [hcl] at h
    have h2 : ('F' : Char) = 'O' :=
      congrArg (fun t : String => t.toList.headD 'Z') h
    exact absurd h2 (by decide)

theorem pyLower_ne_empty {s : String} (hs : s ≠ "") : pyLower s ≠ "" := by
  intro h
  apply hs
  have h1 : (pyLower s).toList = s.toList.map Char.toLower := rfl
  rw [h] at h1
  have h2 : s.toList = [] := List.map_eq_nil_iff.mp h1.symm
  cases s with
  | mk data =>
    cases data with
    | nil => rfl
    | cons c cs => exact absurd h2 (by simp)

/-- C4 (amended): tokenization agrees on a record and on the same record
with its function name lowercased whenever the canonicalizer classifies the
record into the closed vocabulary and the lowercased stripped name does not
newly match the case-sensitive obfuscator pattern; full case-insensitivity
fails because the obfuscator check and the `FN:` fallback read the
original-case name (see the counterexample). -/
theorem canonicalize_entry_lower_amended (s : String) (ev li : Option PyVal)
    (hvocab : canonicalize_entry ⟨some (PyVal.str s), ev, li⟩ ∈ closedVocab)
    (hobf : canonicalize_entry ⟨some (PyVal.str s), ev, li⟩ = "OBFUSCATOR_WRAPPER" ∨
      obfMatchL ((pyStripL s.toList).map Char.toLower) = false) :
    canonicalize_entry ⟨some (PyVal.str (pyLower s)), ev, li⟩ =
      canonicalize_entry ⟨some (PyVal.str s), ev, li⟩ := by
  by_cases hs : s = ""
  · subst hs
    rw [show pyLower "" = "" from by decide]
  · have hA : entryName ⟨some (PyVal.str (pyLower s)), ev, li⟩ = pyLower s :=
      entryName_str (pyLower_ne_empty hs) ev li
    have hB : entryName ⟨some (PyVal.str s), ev, li⟩ = s := entryName_str hs ev li
    have hnorm : pyStripL (pyLower s).toList =
        (pyStripL s.toList).map Char.toLower := by
      rw [show (pyLower s).toList = s.toList.map Char.toLower from rfl,
        pyStripL_map_toLower]
    by_cases hw : obfMatchL (pyStripL s.toList) = true
    · have hBw : canonicalize_entry ⟨some (PyVal.str s), ev, li⟩ =
          "OBFUSCATOR_WRAPPER" := by
        apply canonicalize_entry_wrapper
        rw [hB]
        exact hw
      have hAw : canonicalize_entry ⟨some (PyVal.str (pyLower s)), ev, li⟩ =
          "OBFUSCATOR_WRAPPER" := by
        apply canonicalize_entry_wrapper
        rw [hA, hnorm]
        exact obfMatchL_map_toLower hw
      rw [hAw, hBw]
    · have hofl : obfMatchL ((pyStripL s.toList).map Char.toLower) = false := by
        rcases hobf with h | h
        · have h2 := canonicalize_entry_wrapper_mp h
          rw [hB] at h2
          exact absurd h2 hw
        · exact h
      rw [canonicalize_entry_unfold, canonicalize_entry_unfold, hA, hB, hnorm,
        if_neg (by rw [hofl]; exact Bool.false_ne_true),
        if_neg hw, map_toLower_idem]
      cases hcl : classifyKeyword ((pyStripL s.toList).map Char.toLower) with
      | some t => rfl
      | none =>
        exfalso
        rw [canonicalize_entry_unfold, hB, if_neg hw, hcl] at hvocab
        exact fn_form_not_mem_closedVocab _ hvocab

end TraceAnalysis

namespace TraceAnalysis

/-- C4 counterexample: `canonicalize_entry` is not case-insensitive as
claimed — the record `{function: "Main"}` tokenizes to `FN:Main` while its
lowercased form tokenizes to `FN:main`. -/
theorem canonicalize_entry_case_sensitive_cex :
    canonicalize_entry ⟨some (PyVal.str "Main"), none, none⟩ = "FN:Main" ∧
    canonicalize_entry ⟨some (PyVal.str (pyLower "Main")), none, none⟩ = "FN:main" ∧
    canonicalize_entry ⟨some (PyVal.str "Main"), none, none⟩ ≠
      canonicalize_entry ⟨some (PyVal.str (pyLower "Main")), none, none⟩ :=
  ⟨by decide, by decide, by decide⟩

theorem canonicalize_entry_lower_amended_witness :
    canonicalize_entry ⟨some (PyVal.str (pyLower "Console.Log")), none, none⟩ =
      canonicalize_entry ⟨some (PyVal.str "Console.Log"), none, none⟩ :=
  canonicalize_entry_lower_amended "Console.Log" none none (by decide)
    (Or.inr (by decide))

end TraceAnalysis
